import Mathlib

/-!
Verification development for the homebrew-tap release-reconciliation engine
(`tap.py`). The Python source is shallowly embedded: strings are lists of
characters, network responses and file contents are explicit inputs, raised
exceptions become `Except` errors, and side effects (HTTP fetches, filesystem
writes) are recorded in an explicit effect trace.
-/

set_option maxRecDepth 100000

deriving instance DecidableEq for Except

namespace Tap

/-- Strings are modelled as lists of characters (Python `str`). -/
abbrev Str := List Char

/-! ### Python string primitives -/

/-- Python `str.lstrip(chars)`: drop the longest leading run of characters
drawn from `chars`. -/
def pyLstrip (chars : List Char) (l : Str) : Str :=
  l.dropWhile (fun c => chars.contains c)

/-- Python `str.lstrip()` with no argument (whitespace). -/
def pyLstripWS (l : Str) : Str := l.dropWhile Char.isWhitespace

/-- Python `str.rstrip()` with no argument (whitespace). -/
def pyRstripWS (l : Str) : Str := (l.reverse.dropWhile Char.isWhitespace).reverse

/-- Python `str.strip()` with no argument (whitespace both ends). -/
def pyStrip (l : Str) : Str := pyRstripWS (pyLstripWS l)

/-- Python `str.split(sep)` for a single-character separator: always returns at
least one (possibly empty) piece, one more piece per separator occurrence. -/
def splitOnChar (c : Char) : Str → List Str :=
  List.foldr
    (fun ch acc =>
      match acc with
      | [] => [[ch]]
      | cur :: rest => if ch = c then [] :: cur :: rest else (ch :: cur) :: rest)
    [[]]

/-- The line-break characters recognized by Python `str.splitlines()`:
LF, CR, VT (`\x0b`), FF (`\x0c`), FS/GS/RS (`\x1c`-`\x1e`), NEL (`\x85`),
LINE SEPARATOR (U+2028) and PARAGRAPH SEPARATOR (U+2029).  A CR immediately
followed by LF counts as a single break (handled in `pySplitLinesFuel`). -/
def isLineBreak (c : Char) : Bool :=
  c = '\n' || c = '\r' || c = '\x0b' || c = '\x0c' ||
  c = '\x1c' || c = '\x1d' || c = '\x1e' || c = '\x85' ||
  c = '\u2028' || c = '\u2029'

/-- Python `str.splitlines()`, fuelled so the recursion is structural: each
step emits the maximal break-free prefix as one line and consumes its
terminating break (a `\r\n` pair counts as one break); a final line without a
trailing break is still emitted, and a trailing break adds no empty line.
Every step consumes at least one character, so fuel equal to the length of the
string (supplied by `pySplitLines`) always suffices and the fuel-exhausted
branch is unreachable. -/
def pySplitLinesFuel : Nat → Str → List Str
  | _, [] => []
  | 0, l => [l]
  | fuel + 1, c :: cs =>
    match (c :: cs).dropWhile (fun ch => !isLineBreak ch) with
    | [] => [(c :: cs).takeWhile (fun ch => !isLineBreak ch)]
    | b :: r =>
      (c :: cs).takeWhile (fun ch => !isLineBreak ch) ::
        pySplitLinesFuel fuel (if b = '\r' ∧ r.head? = some '\n' then r.tail else r)

/-- Python `str.splitlines()`. -/
def pySplitLines (l : Str) : List Str := pySplitLinesFuel l.length l

/-- Python `'\n'.join(...)`. -/
def joinNL (ls : List Str) : Str := List.intercalate ['\n'] ls

/-- Python `str.replace(pat, sub)` on character lists (used to model
`str.format` for the archive-name pattern, whose only placeholders are
`{name}`, `{version}`, `{arch}` and `{ext}`). -/
def replaceAll (pat sub : Str) (l : Str) : Str :=
  if hp : pat = [] then l
  else
    match l with
    | [] => []
    | c :: rest =>
      if pat.isPrefixOf (c :: rest) then
        sub ++ replaceAll pat sub ((c :: rest).drop pat.length)
      else
        c :: replaceAll pat sub rest
termination_by l.length
decreasing_by
  · simp only [List.length_drop, List.length_cons]
    have : 0 < pat.length := List.length_pos.mpr hp
    omega
  · simp only [List.length_cons]
    omega

/-- Index of the last occurrence of `c` in `l` (Python `str.rfind` restricted
to single characters, with `none` for "not found"). -/
def lastIndexOf (c : Char) : Str → Option Nat
  | [] => none
  | x :: xs =>
    match lastIndexOf c xs with
    | some i => some (i + 1)
    | none => if x = c then some 0 else none

/-- CPython `posixpath.splitext`: split off the extension at the last dot,
provided that dot comes after the last path separator and the final path
component has at least one non-dot character before it. -/
def splitext (p : Str) : Str × Str :=
  match lastIndexOf '.' p with
  | none => (p, [])
  | some d =>
    let lo : Nat :=
      match lastIndexOf '/' p with
      | none => 0
      | some s => s + 1
    let sepOk : Bool :=
      match lastIndexOf '/' p with
      | none => true
      | some s => decide (s < d)
    if sepOk && (List.range d).any (fun i => decide (lo ≤ i) && decide (p.getD i '.' ≠ '.')) then
      (p.take d, p.drop d)
    else (p, [])

/-! ### UTF-8 and SHA-256 (`url.encode('utf-8')`, `hashlib.sha256`) -/

/-- UTF-8 encoding of a single character. -/
def utf8EncodeChar (c : Char) : List Nat :=
  let n := c.toNat
  if n < 128 then [n]
  else if n < 2048 then [192 ||| (n >>> 6), 128 ||| (n &&& 63)]
  else if n < 65536 then
    [224 ||| (n >>> 12), 128 ||| ((n >>> 6) &&& 63), 128 ||| (n &&& 63)]
  else
    [240 ||| (n >>> 18), 128 ||| ((n >>> 12) &&& 63),
     128 ||| ((n >>> 6) &&& 63), 128 ||| (n &&& 63)]

/-- UTF-8 encoding of a string (Python `str.encode('utf-8')`). -/
def utf8Bytes (s : Str) : List Nat := (s.map utf8EncodeChar).join

/-- Truncation to a 32-bit word. -/
def w32 (n : Nat) : Nat := n % 4294967296

/-- 32-bit rotate right. -/
def rotr (n x : Nat) : Nat := w32 ((x >>> n) ||| (x <<< (32 - n)))

def bigSigma0 (x : Nat) : Nat := rotr 2 x ^^^ rotr 13 x ^^^ rotr 22 x
def bigSigma1 (x : Nat) : Nat := rotr 6 x ^^^ rotr 11 x ^^^ rotr 25 x
def smallSigma0 (x : Nat) : Nat := rotr 7 x ^^^ rotr 18 x ^^^ (x >>> 3)
def smallSigma1 (x : Nat) : Nat := rotr 17 x ^^^ rotr 19 x ^^^ (x >>> 10)

/-- The SHA-256 round constants. -/
def sha256K : List Nat :=
  [1116352408, 1899447441, 3049323471, 3921009573, 961987163, 1508970993,
   2453635748, 2870763221, 3624381080, 310598401, 607225278, 1426881987,
   1925078388, 2162078206, 2614888103, 3248222580, 3835390401, 4022224774,
   264347078, 604807628, 770255983, 1249150122, 1555081692, 1996064986,
   2554220882, 2821834349, 2952996808, 3210313671, 3336571891, 3584528711,
   113926993, 338241895, 666307205, 773529912, 1294757372, 1396182291,
   1695183700, 1986661051, 2177026350, 2456956037, 2730485921, 2820302411,
   3259730800, 3345764771, 3516065817, 3600352804, 4094571909, 275423344,
   430227734, 506948616, 659060556, 883997877, 958139571, 1322822218,
   1537002063, 1747873779, 1955562222, 2024104815, 2227730452, 2361852424,
   2428436474, 2756734187, 3204031479, 3329325298]

/-- The SHA-256 initial hash value. -/
def sha256H0 : List Nat :=
  [1779033703, 3144134277, 1013904242, 2773480762,
   1359893119, 2600822924, 528734635, 1541459225]

/-- Big-endian 8-byte encoding of a length. -/
def toBE8 (n : Nat) : List Nat :=
  (List.range 8).map (fun i => (n >>> (8 * (7 - i))) % 256)

/-- SHA-256 padding: `0x80`, zeros to 56 mod 64, then the bit length. -/
def sha256pad (msg : List Nat) : List Nat :=
  let l := msg.length
  msg ++ 128 :: List.replicate ((119 - l % 64) % 64) 0 ++ toBE8 (8 * l)

/-- Group bytes into 32-bit big-endian words. -/
def toWords32 : List Nat → List Nat
  | b0 :: b1 :: b2 :: b3 :: rest =>
    ((b0 <<< 24) ||| (b1 <<< 16) ||| (b2 <<< 8) ||| b3) :: toWords32 rest
  | _ => []

/-- Split a byte stream into 64-byte blocks. -/
def chunks64 (l : List Nat) : List (List Nat) :=
  if h : l = [] then []
  else l.take 64 :: chunks64 (l.drop 64)
termination_by l.length
decreasing_by
  simp only [List.length_drop]
  exact Nat.sub_lt (List.length_pos.mpr h) (by omega)

/-- Extend the 16 message words to the 64-entry message schedule. -/
def extendSchedule (ws : List Nat) : List Nat :=
  (List.range 48).foldl
    (fun w _ =>
      let n := w.length
      w ++ [w32 (smallSigma1 (w.getD (n - 2) 0) + w.getD (n - 7) 0 +
                 smallSigma0 (w.getD (n - 15) 0) + w.getD (n - 16) 0)])
    ws

/-- One SHA-256 compression round over an 8-word state. -/
def sha256Round (ws : List Nat) (st : List Nat) (t : Nat) : List Nat :=
  match st with
  | [a, b, c, d, e, f, g, h] =>
    let ch := (e &&& f) ^^^ ((e ^^^ 4294967295) &&& g)
    let maj := (a &&& b) ^^^ (a &&& c) ^^^ (b &&& c)
    let t1 := w32 (h + bigSigma1 e + ch + sha256K.getD t 0 + ws.getD t 0)
    let t2 := w32 (bigSigma0 a + maj)
    [w32 (t1 + t2), a, b, c, w32 (d + t1), e, f, g]
  | other => other

/-- SHA-256 compression of one 64-byte block into the running hash. -/
def compressBlock (h : List Nat) (block : List Nat) : List Nat :=
  let ws := extendSchedule (toWords32 block)
  let final := (List.range 64).foldl (sha256Round ws) h
  (h.zip final).map (fun p => w32 (p.1 + p.2))

/-- SHA-256 of a byte stream, as eight 32-bit words. -/
def sha256words (msg : List Nat) : List Nat :=
  (chunks64 (sha256pad msg)).foldl compressBlock sha256H0

/-- Lowercase hex digit. -/
def hexChar (n : Nat) : Char :=
  if n < 10 then Char.ofNat (48 + n) else Char.ofNat (87 + n)

/-- Lowercase 8-hex-digit rendering of a 32-bit word. -/
def wordHex (w : Nat) : Str :=
  (List.range 8).map (fun i => hexChar ((w >>> (28 - 4 * i)) &&& 15))

/-- `hashlib.sha256(bytes).hexdigest()`. -/
def sha256hexBytes (msg : List Nat) : Str :=
  ((sha256words msg).map wordHex).join

/-- `hashlib.sha256(s.encode('utf-8')).hexdigest()`. -/
def sha256hexOfStr (s : Str) : Str := sha256hexBytes (utf8Bytes s)

/-! ### Error, effect and data model -/

/-- The exceptions the embedded code can raise.  `attributeError` models the
`AttributeError` raised by evaluating `resp.read().decude('utf-8')` (a typo for
`decode`) in `fetch_and_hash`; `valueError` models `ValueError` (the spec's
`ConfigurationError`); `stopIteration` the exhausted `next(...)` in
`formula_version`; `indexError` an out-of-range subscript; `runtimeError` a
`RuntimeError` with its message. -/
inductive Err where
  | attributeError
  | valueError (msg : Str)
  | stopIteration
  | indexError
  | runtimeError (msg : Str)
deriving DecidableEq

/-- Observable side effects of a run: an HTTP GET of an artifact URL, a
`mkdir -p` of the formula directory, or a write of a definition file. -/
inductive Effect where
  | fetch (url : Str)
  | mkdir (path : Str)
  | write (path : Str) (content : Str)
deriving DecidableEq

/-- An HTTP response, as far as `fetch_and_hash` observes it: a status code and
a body (a byte list). -/
structure HTTPResponse where
  status : Nat
  body : List Nat
deriving DecidableEq

/-- A fetched artifact: URL plus hex SHA-256 content digest (class `Archive`). -/
structure Archive where
  url : Str
  sha256 : Str
deriving DecidableEq

/-- The four per-platform artifacts (class `Archives`). -/
structure Archives where
  mac_aarch64 : Archive
  mac_x86_64 : Archive
  linux_aarch64 : Archive
  linux_x86_64 : Archive
deriving DecidableEq

/-- A manpage declaration (class `Man`).  The Python field is named `section`,
which is a reserved word in Lean, hence `msection`. -/
structure Man where
  msection : Nat
  path : Str
deriving DecidableEq

/-- `Man.parse`: `cls(int(s[-1]), s)` — the section is the final character of
the declared path, parsed as a digit; an empty string raises `IndexError` and a
non-digit final character raises `ValueError`. -/
def Man.parse (s : Str) : Except Err Man :=
  match s.getLast? with
  | none => .error .indexError
  | some c =>
    if c.isDigit then .ok ⟨c.toNat - 48, s⟩
    else .error (.valueError "invalid literal for int() with base 10".data)

/-- `Man.format`: `f'man{self.section}.install "{self.path}"'`. -/
def Man.format (m : Man) : Str :=
  "man".data ++ Nat.toDigits 10 m.msection ++ ".install \"".data ++ m.path ++ ['"']

/-- A shell-completion declaration (class `Completion`). -/
structure Completion where
  shell : Str
  path : Str
deriving DecidableEq

/-- `Completion.parse`: the shell kind is the path's extension stripped of
leading dots (`ext.lstrip('.')`), and `zsh` when the extension is empty. -/
def Completion.parse (s : Str) : Completion :=
  let ext := (splitext s).2
  ⟨if ext = [] then "zsh".data else pyLstrip ['.'] ext, s⟩

/-- `Completion.format`: `f'{self.shell}_completion.install "{self.path}"'`. -/
def Completion.format (c : Completion) : Str :=
  c.shell ++ "_completion.install \"".data ++ c.path ++ ['"']

/-- A tracked project (class `Formula`), as loaded from configuration. -/
structure Formula where
  repo : Str
  homepage : Str
  desc : Str
  license : Str
  bins : List Str
  mans : List Man
  deps : List Str
  completions : List Completion
  archive_fmt : Str
  linux_ext : Str
  darwin_ext : Str
deriving DecidableEq

/-- `Formula.org`: `self.repo.split('/')[0]` (index 0 always exists). -/
def Formula.org (f : Formula) : Str := (splitOnChar '/' f.repo).headD []

/-- `Formula.name`: `self.repo.split('/')[1]`, which raises `IndexError` when
the repo string has no slash. -/
def Formula.nameE (f : Formula) : Except Err Str :=
  match (splitOnChar '/' f.repo).get? 1 with
  | none => .error .indexError
  | some n => .ok n

/-! ### Release resolution and version reading -/

/-- The tag normalization in `GithubClient.get_latest_release_version`: the
release payload either has no `tag_name` (→ `None`) or the tag is returned as
`tag_name.lstrip('v')`.  The HTTP exchange is abstracted into the optional
`tag_name` input. -/
def get_latest_release_version (tag_name : Option Str) : Option Str :=
  tag_name.map (fun t => pyLstrip ['v'] t)

/-- The test selecting the version line: `line.strip().startswith('version')`. -/
def version_line_test (l : Str) : Bool :=
  "version".data.isPrefixOf (pyStrip l)

/-- The parsing part of `Formula.formula_version` applied to the file's text:
the first line whose stripped form starts with `version`, then the piece
between the first two double quotes (`line.split('"')[1]`).  `next` on an
exhausted iterator raises `StopIteration`; a missing subscript raises
`IndexError`. -/
def formula_version_of_content (content : Str) : Except Err Str :=
  match (pySplitLines content).find? version_line_test with
  | none => .error .stopIteration
  | some line =>
    match (splitOnChar '"' line).get? 1 with
    | none => .error .indexError
    | some v => .ok v

/-- `Formula.formula_version`: `None` when the definition file does not exist,
otherwise the parsed declared version of its content. -/
def formula_version (file_content : Option Str) : Except Err (Option Str) :=
  match file_content with
  | none => .ok none
  | some content => (formula_version_of_content content).map some

/-! ### Renderer -/

/-- ASCII uppercase mapping (the effect of Python `str.capitalize` on the first
character, restricted to ASCII). -/
def asciiUpper (c : Char) : Char :=
  match "abcdefghijklmnopqrstuvwxyz".data.findIdx? (fun x => x = c) with
  | some i => "ABCDEFGHIJKLMNOPQRSTUVWXYZ".data.getD i c
  | none => c

/-- ASCII lowercase mapping. -/
def asciiLower (c : Char) : Char :=
  match "ABCDEFGHIJKLMNOPQRSTUVWXYZ".data.findIdx? (fun x => x = c) with
  | some i => "abcdefghijklmnopqrstuvwxyz".data.getD i c
  | none => c

/-- Python `str.capitalize` (ASCII): first character uppercased, the rest
lowercased. -/
def pyCapitalize : Str → Str
  | [] => []
  | c :: cs => asciiUpper c :: cs.map asciiLower

/-- Split into maximal groups separated by characters satisfying `p`
(models `re.split` on a character-class-plus pattern, keeping empty pieces). -/
def splitOnPred (p : Char → Bool) : Str → List Str :=
  List.foldr
    (fun c acc =>
      match acc with
      | [] => [[c]]
      | g :: gs => if p c then [] :: g :: gs else (c :: g) :: gs)
    [[]]

/-- `to_pascal_case`: split on runs of non-alphanumeric characters
(`re.split(r'[\W_]+', s)`, ASCII reading), capitalize each nonempty word, and
concatenate. -/
def to_pascal_case (s : Str) : Str :=
  (((splitOnPred (fun c => !c.isAlphanum) s).filter (fun w => w ≠ [])).map pyCapitalize).join

/-- `format_dep` inside `generate_homebrew_formula`: split the declaration on
`#`; one piece renders bare, two pieces render with the keyword `optional` or
`recommended`, anything else raises `ValueError`.  (The Python messages quote
the offending pieces with `repr`; the quoting is elided here.) -/
def format_dep (dep : Str) : Except Err Str :=
  match splitOnChar '#' dep with
  | [name] => .ok ('"' :: name ++ ['"'])
  | [name, kw] =>
    if kw = "optional".data then .ok ('"' :: name ++ "\" => :optional".data)
    else if kw = "recommended".data then .ok ('"' :: name ++ "\" => :recommended".data)
    else .error (.valueError ("Unknown dependency keyword ".data ++ kw ++
      ". Use optional or recommended".data))
  | _ => .error (.valueError
      "Invalid dependency syntax. Use name or name#keyword where keyword is optional or recommended".data)

/-- One `depends_on` line: `f'  depends_on {format_dep(dep)}'`. -/
def format_dep_line (dep : Str) : Except Err Str :=
  (format_dep dep).map (fun r => "  depends_on ".data ++ r)

/-- Sequential effectful map over `Except` (the generator inside
`'\n'.join(...)`: the first raising element aborts). -/
def mapE (g : α → Except Err β) : List α → Except Err (List β)
  | [] => .ok []
  | x :: xs =>
    match g x with
    | .error e => .error e
    | .ok y =>
      match mapE g xs with
      | .error e => .error e
      | .ok ys => .ok (y :: ys)

/-- The module-level `FORMULA_TEMPLATE` string with its placeholders
substituted (`FORMULA_TEMPLATE.format(...)`). -/
def FORMULA_TEMPLATE (desc cname homepage version license depsfmt
    mac_x86_64_url mac_x86_64_sha256 mac_aarch64_url mac_aarch64_sha256
    linux_x86_64_url linux_x86_64_sha256 linux_aarch64_url linux_aarch64_sha256
    binsfmt mansfmt completionsfmt : Str) : Str :=
  "# frozen_string_literal: true\n\n# ".data ++ desc ++
  "\nclass ".data ++ cname ++
  " < Formula\n  desc \"".data ++ desc ++
  "\"\n  homepage \"".data ++ homepage ++
  "\"\n  version \"".data ++ version ++
  "\"\n  license \"".data ++ license ++
  "\"\n".data ++ depsfmt ++
  "\n  if OS.mac?\n    on_intel do\n      url \"".data ++ mac_x86_64_url ++
  "\"\n      sha256 \"".data ++ mac_x86_64_sha256 ++
  "\"\n    end\n    on_arm do\n      url \"".data ++ mac_aarch64_url ++
  "\"\n      sha256 \"".data ++ mac_aarch64_sha256 ++
  "\"\n    end\n  elsif OS.linux?\n    on_intel do\n      url \"".data ++ linux_x86_64_url ++
  "\"\n      sha256 \"".data ++ linux_x86_64_sha256 ++
  "\"\n    end\n    on_arm do\n      url \"".data ++ linux_aarch64_url ++
  "\"\n      sha256 \"".data ++ linux_aarch64_sha256 ++
  "\"\n    end\n  end\n\n  def install".data ++ binsfmt ++ mansfmt ++ completionsfmt ++
  "\n  end\nend\n".data

/-- `HomebrewContext.generate_homebrew_formula`: render the dependency, binary,
manpage and completion blocks and substitute everything into the template.
`name` is `self.formula.name` and `new_version` is `self.new_version`. -/
def generate_homebrew_formula (f : Formula) (name new_version : Str)
    (archives : Archives) : Except Err Str :=
  match mapE format_dep_line f.deps with
  | .error e => .error e
  | .ok depLines =>
    let depsfmt := joinNL depLines
    let depsfmt := if depsfmt = [] then [] else '\n' :: depsfmt
    let binsfmt := joinNL (f.bins.map (fun b => "    bin.install \"".data ++ b ++ ['"']))
    let binsfmt := if binsfmt = [] then [] else '\n' :: binsfmt
    let mansfmt := joinNL (f.mans.map (fun m => "    ".data ++ m.format))
    let mansfmt := if mansfmt = [] then [] else '\n' :: mansfmt
    let completionsfmt := joinNL (f.completions.map (fun c => "    ".data ++ c.format))
    let completionsfmt := if completionsfmt = [] then [] else '\n' :: completionsfmt
    .ok (FORMULA_TEMPLATE f.desc (to_pascal_case name) f.homepage new_version f.license depsfmt
      archives.mac_x86_64.url archives.mac_x86_64.sha256
      archives.mac_aarch64.url archives.mac_aarch64.sha256
      archives.linux_x86_64.url archives.linux_x86_64.sha256
      archives.linux_aarch64.url archives.linux_aarch64.sha256
      binsfmt mansfmt completionsfmt)

/-! ### Digest fetcher, artifact locator, reconciliation engine -/

/-- `HomebrewContext.fetch_and_hash`.  In dry-run mode the digest is the
SHA-256 of the URL string itself and no network access happens.  Otherwise the
response for the URL is consulted: on a non-200 status the code evaluates
`resp.read().decude('utf-8')` — a typo for `decode` — so an `AttributeError`
is raised before the `RuntimeError('Failed to fetch archive: ...')` line is
reached; on a 200 status the digest is the SHA-256 of the body. -/
def fetch_and_hash (dry_run : Bool) (url : Str) (resp : HTTPResponse) : Except Err Str :=
  if dry_run then .ok (sha256hexOfStr url)
  else if resp.status ≠ 200 then .error .attributeError
  else .ok (sha256hexBytes resp.body)

/-- The archive-name pattern substitution
(`self.formula.archive_fmt.format(name=..., version=..., arch=..., ext=...)`,
for patterns built from literal text and these four placeholders). -/
def formatPattern (fmt name version arch ext : Str) : Str :=
  replaceAll "{name}".data name
    (replaceAll "{version}".data version
      (replaceAll "{arch}".data arch
        (replaceAll "{ext}".data ext fmt)))

/-- `HomebrewContext.package_artifact_url`: pick the extension by platform
family (`arch.endswith('darwin')`), substitute the naming pattern, and compose
the release download URL. -/
def package_artifact_url (f : Formula) (name new_version arch : Str) : Str :=
  let ext := if "darwin".data.isSuffixOf arch then f.darwin_ext else f.linux_ext
  let fmt := formatPattern f.archive_fmt name new_version arch ext
  "https://github.com/".data ++ f.org ++ ['/'] ++ name ++
    "/releases/download/".data ++ new_version ++ ['/'] ++ fmt

/-- The four artifact URLs, in the order their fetches are submitted. -/
def artifact_urls (f : Formula) (name new_version : Str) : List Str :=
  [package_artifact_url f name new_version "aarch64-apple-darwin".data,
   package_artifact_url f name new_version "x86_64-apple-darwin".data,
   package_artifact_url f name new_version "aarch64-unknown-linux-musl".data,
   package_artifact_url f name new_version "x86_64-unknown-linux-musl".data]

/-- `HomebrewContext.update_formula`: construct the four artifact URLs, fetch
and hash all four (all four GETs are dispatched to the worker pool before any
result is awaited, so in non-dry-run mode all four fetch effects occur
regardless of failures; results are awaited in submission order and the first
failure propagates), render the formula, and — outside dry-run — create the
formula directory and write the definition file.  `net` gives the HTTP
response per URL. -/
def update_formula (f : Formula) (name new_version : Str) (dry_run : Bool)
    (net : Str → HTTPResponse) : List Effect × Except Err Unit :=
  let u1 := package_artifact_url f name new_version "aarch64-apple-darwin".data
  let u2 := package_artifact_url f name new_version "x86_64-apple-darwin".data
  let u3 := package_artifact_url f name new_version "aarch64-unknown-linux-musl".data
  let u4 := package_artifact_url f name new_version "x86_64-unknown-linux-musl".data
  let fetchEffs : List Effect :=
    if dry_run then [] else [.fetch u1, .fetch u2, .fetch u3, .fetch u4]
  match fetch_and_hash dry_run u1 (net u1), fetch_and_hash dry_run u2 (net u2),
        fetch_and_hash dry_run u3 (net u3), fetch_and_hash dry_run u4 (net u4) with
  | .ok s1, .ok s2, .ok s3, .ok s4 =>
    let archives : Archives := ⟨⟨u1, s1⟩, ⟨u2, s2⟩, ⟨u3, s3⟩, ⟨u4, s4⟩⟩
    match generate_homebrew_formula f name new_version archives with
    | .error e => (fetchEffs, .error e)
    | .ok text =>
      if dry_run then (fetchEffs, .ok ())
      else (fetchEffs ++ [.mkdir "Formula".data,
                          .write ("Formula/".data ++ name ++ ".rb".data) text], .ok ())
  | .error e, _, _, _ => (fetchEffs, .error e)
  | _, .error e, _, _ => (fetchEffs, .error e)
  | _, _, .error e, _ => (fetchEffs, .error e)
  | _, _, _, .error e => (fetchEffs, .error e)

/-- Per-project reconciliation outcome (§3 `ReconciliationOutcome`). -/
inductive Outcome where
  | skipped
  | upToDate
  | updated (name : Str) (old : Option Str) (new : Str)
deriving DecidableEq

/-- One iteration of the `update_tap` loop for one formula: resolve the name
(the loop logs `formula.name` first, so a malformed repo aborts immediately),
skip when no release version was found, read the declared version
(`HomebrewContext.__init__`), short-circuit with `VersionUpToDate` when it
equals the resolved version, and otherwise run `update_formula`.
`file_content` is the definition file's content (or `none` when absent) and
`github_version` the resolved upstream version. -/
def processFormula (f : Formula) (file_content : Option Str)
    (github_version : Option Str) (dry_run : Bool) (net : Str → HTTPResponse) :
    List Effect × Except Err Outcome :=
  match f.nameE with
  | .error e => ([], .error e)
  | .ok name =>
    match github_version with
    | none => ([], .ok .skipped)
    | some v =>
      match formula_version file_content with
      | .error e => ([], .error e)
      | .ok declared =>
        if declared = some v then ([], .ok .upToDate)
        else
          match update_formula f name v dry_run net with
          | (effs, .error e) => (effs, .error e)
          | (effs, .ok _) => (effs, .ok (.updated name declared v))

/-- The `update_tap` project loop: strictly sequential, aborting the run on the
first error, and accumulating the `bumped` list of `(name, new version)` pairs
for updated projects.  Each project carries its definition-file content and
resolved upstream version. -/
def update_tap : List (Formula × Option Str × Option Str) → Bool →
    (Str → HTTPResponse) → List Effect × Except Err (List (Str × Str))
  | [], _, _ => ([], .ok [])
  | (f, fc, gh) :: rest, dry_run, net =>
    match processFormula f fc gh dry_run net with
    | (effs, .error e) => (effs, .error e)
    | (effs, .ok o) =>
      match update_tap rest dry_run net with
      | (effs2, .error e) => (effs ++ effs2, .error e)
      | (effs2, .ok bumped) =>
        (effs ++ effs2, .ok
          (match o with
           | .updated name _ v => (name, v) :: bumped
           | _ => bumped))

/-! ### Spec-side definitions (for comparison against the source) -/

/-- Modelled from the spec wording of C3: the tag with exactly one leading `v`
removed when present. -/
def spec_strip_single_v : Str → Str
  | 'v' :: rest => rest
  | l => l

/-- Modelled from the spec wording of C9: the extension with the (single)
leading dot removed. -/
def spec_drop_leading_dot : Str → Str
  | '.' :: rest => rest
  | l => l

/-! ### Concrete fixtures for witnesses and counterexamples -/

/-- A network oracle answering every URL with an empty 200 response. -/
def fxNet200 : Str → HTTPResponse := fun _ => { status := 200, body := [10, 20, 30] }

/-- A network oracle answering every URL with a 404 response. -/
def fxNet404 : Str → HTTPResponse := fun _ => { status := 404, body := [] }

/-- A well-formed tracked project. -/
def fxFormula : Formula :=
  { repo := "lmaotrigine/srv".data
    homepage := "https://example.com".data
    desc := "a tiny server".data
    license := "BSD-3-Clause".data
    bins := ["srv".data]
    mans := []
    deps := []
    completions := []
    archive_fmt := "{name}-{arch}.{ext}".data
    linux_ext := "tar.xz".data
    darwin_ext := "tar.xz".data }

/-- The same project with a dependency carrying an unrecognized keyword. -/
def fxFormulaBadDep : Formula := { fxFormula with deps := ["foo#bogus".data] }

/-- The same project with a dependency containing two hash signs. -/
def fxFormulaBadDep2 : Formula := { fxFormula with deps := ["a#b#c".data] }

/-- A definition file declaring version 1.2.3. -/
def fxContent123 : Str := "  version \"1.2.3\"\n".data

/-- A definition file declaring version 1.2.0. -/
def fxContent120 : Str := "  version \"1.2.0\"\n".data

/-- A version string containing a double quote. -/
def fxVersionQuote : Str := ['1', '"', '2']

/-- Four concrete fetched artifacts. -/
def fxArch : Archives :=
  ⟨⟨"uA".data, "sA".data⟩, ⟨"uB".data, "sB".data⟩,
   ⟨"uC".data, "sC".data⟩, ⟨"uD".data, "sD".data⟩⟩

/-! ### Lemmas: splitting on a character -/

theorem splitOnChar_nil (c : Char) : splitOnChar c [] = [[]] := rfl

theorem splitOnChar_cons (c x : Char) (xs : Str) :
    splitOnChar c (x :: xs) =
      match splitOnChar c xs with
      | [] => [[x]]
      | cur :: rest => if x = c then [] :: cur :: rest else (x :: cur) :: rest := rfl

theorem splitOnChar_ne_nil (c : Char) (l : Str) : splitOnChar c l ≠ [] := by
  induction l with
  | nil => simp [splitOnChar_nil]
  | cons x xs ih =>
    rw [splitOnChar_cons]
    cases h : splitOnChar c xs with
    | nil => simp
    | cons cur rest =>
      by_cases hx : x = c <;> simp [hx]

theorem splitOnChar_not_mem {c : Char} {l : Str} (h : c ∉ l) :
    splitOnChar c l = [l] := by
  induction l with
  | nil => rfl
  | cons x xs ih =>
    rw [splitOnChar_cons, ih (fun hm => h (List.mem_cons_of_mem _ hm))]
    have hx : x ≠ c := fun he => h (he ▸ List.mem_cons_self _ _)
    simp [hx]

theorem splitOnChar_append {c : Char} {a : Str} (r : Str) (h : c ∉ a) :
    splitOnChar c (a ++ c :: r) = a :: splitOnChar c r := by
  induction a with
  | nil =>
    simp only [List.nil_append]
    rw [splitOnChar_cons]
    cases hs : splitOnChar c r with
    | nil => exact absurd hs (splitOnChar_ne_nil c r)
    | cons cur rest => simp
  | cons x xs ih =>
    have hx : x ≠ c := fun he => h (he ▸ List.mem_cons_self _ _)
    have hxs : c ∉ xs := fun hm => h (List.mem_cons_of_mem _ hm)
    simp only [List.cons_append]
    rw [splitOnChar_cons, ih hxs]
    simp [hx]

/-! ### Lemmas: Python strip -/

theorem pyLstripWS_cons_ws {c : Char} (l : Str) (h : c.isWhitespace = true) :
    pyLstripWS (c :: l) = pyLstripWS l := by
  simp [pyLstripWS, List.dropWhile_cons, h]

theorem pyLstripWS_cons_nonws {c : Char} (l : Str) (h : c.isWhitespace = false) :
    pyLstripWS (c :: l) = c :: l := by
  simp [pyLstripWS, List.dropWhile_cons, h]

theorem dropWhile_append_of_ne_nil {p : Char → Bool} {xs : Str} (ys : Str)
    (h : xs.dropWhile p ≠ []) :
    (xs ++ ys).dropWhile p = xs.dropWhile p ++ ys := by
  induction xs with
  | nil => simp at h
  | cons x xt ih =>
    by_cases hx : p x
    · simp only [List.cons_append, List.dropWhile_cons, hx, if_true] at *
      exact ih h
    · simp only [List.cons_append, List.dropWhile_cons, hx, if_false]
      simp [List.dropWhile_cons, hx] at h ⊢

theorem pyRstripWS_cons_nonws {c : Char} (l : Str) (h : c.isWhitespace = false) :
    pyRstripWS (c :: l) = c :: pyRstripWS l := by
  unfold pyRstripWS
  rw [List.reverse_cons]
  by_cases hd : l.reverse.dropWhile Char.isWhitespace = []
  · rw [List.dropWhile_append]
    simp [hd, List.dropWhile_cons, h]
  · rw [dropWhile_append_of_ne_nil _ hd]
    simp

theorem pyRstripWS_append_nonws {c : Char} (l : Str) (h : c.isWhitespace = false) :
    pyRstripWS (l ++ [c]) = l ++ [c] := by
  unfold pyRstripWS
  rw [List.reverse_append]
  simp only [List.reverse_cons, List.reverse_nil, List.nil_append, List.singleton_append,
    List.dropWhile_cons, h]
  simp

/-! ### Lemmas: the version-line test -/

theorem version_line_test_cons_ws {c : Char} (l : Str) (h : c.isWhitespace = true) :
    version_line_test (c :: l) = version_line_test l := by
  unfold version_line_test pyStrip
  rw [pyLstripWS_cons_ws l h]

theorem version_line_test_cons_head {c : Char} (l : Str)
    (hws : c.isWhitespace = false) (hv : c ≠ 'v') :
    version_line_test (c :: l) = false := by
  unfold version_line_test pyStrip
  rw [pyLstripWS_cons_nonws l hws, pyRstripWS_cons_nonws _ hws]
  simp [List.isPrefixOf, hv.symm]

theorem version_line_test_version_line (v : Str) :
    version_line_test ("  version \"".data ++ v ++ ['"']) = true := by
  have h1 : ("  version \"".data ++ v ++ ['"'] : Str) =
      ' ' :: (' ' :: ("version \"".data ++ v ++ ['"'])) := by
    simp
  rw [h1, version_line_test_cons_ws _ (by decide), version_line_test_cons_ws _ (by decide)]
  unfold version_line_test pyStrip
  rw [show ("version \"".data ++ v ++ ['"'] : Str) =
    'v' :: ("ersion \"".data ++ v ++ ['"']) by simp]
  rw [pyLstripWS_cons_nonws _ (by decide)]
  rw [show ('v' :: ("ersion \"".data ++ v ++ ['"']) : Str) =
    ('v' :: "ersion \"".data ++ v) ++ ['"'] by simp]
  rw [pyRstripWS_append_nonws _ (by decide)]
  rw [show (('v' :: "ersion \"".data ++ v) ++ ['"'] : Str) =
    'v' :: 'e' :: 'r' :: 's' :: 'i' :: 'o' :: 'n' :: ' ' :: '"' :: (v ++ ['"']) by simp]
  simp [List.isPrefixOf]

/-! ### Lemmas: splitlines -/

theorem pySplitLinesFuel_nil (n : Nat) : pySplitLinesFuel n [] = [] := by
  cases n <;> rfl

theorem pySplitLinesFuel_step (n : Nat) (l : Str) (hl : l ≠ []) :
    pySplitLinesFuel (n + 1) l =
      l.takeWhile (fun ch => !isLineBreak ch) ::
        (match l.dropWhile (fun ch => !isLineBreak ch) with
         | [] => []
         | b :: r =>
           pySplitLinesFuel n (if b = '\r' ∧ r.head? = some '\n' then r.tail else r)) := by
  obtain ⟨c, cs, rfl⟩ := List.exists_cons_of_ne_nil hl
  have hunf : pySplitLinesFuel (n + 1) (c :: cs) =
      (match (c :: cs).dropWhile (fun ch => !isLineBreak ch) with
       | [] => [(c :: cs).takeWhile (fun ch => !isLineBreak ch)]
       | b :: r =>
         (c :: cs).takeWhile (fun ch => !isLineBreak ch) ::
           pySplitLinesFuel n (if b = '\r' ∧ r.head? = some '\n' then r.tail else r)) := rfl
  rw [hunf]
  rcases hdrop : (c :: cs).dropWhile (fun ch => !isLineBreak ch) with - | ⟨b, r⟩ <;>
    rfl

theorem dropWhile_length_le (p : Char → Bool) :
    ∀ l : Str, (l.dropWhile p).length ≤ l.length := by
  intro l
  induction l with
  | nil => simp
  | cons x xs ih =>
    rw [List.dropWhile_cons]
    split
    · exact Nat.le_trans ih (by simp)
    · exact Nat.le_refl _

theorem pySplitLinesFuel_fuel_eq :
    ∀ (n : Nat) (l : Str), l.length ≤ n → pySplitLinesFuel n l = pySplitLines l := by
  intro n
  induction n using Nat.strong_induction_on with
  | _ n ih =>
    intro l hl
    cases l with
    | nil => rw [pySplitLinesFuel_nil]; rfl
    | cons c cs =>
      cases n with
      | zero => simp at hl
      | succ n2 =>
        rw [pySplitLinesFuel_step n2 _ (by simp)]
        rw [show pySplitLines (c :: cs) = pySplitLinesFuel (cs.length + 1) (c :: cs) from rfl]
        rw [pySplitLinesFuel_step cs.length _ (by simp)]
        cases hdrop : (c :: cs).dropWhile (fun ch => !isLineBreak ch) with
        | nil => rfl
        | cons b r =>
          have hr : r.length ≤ cs.length := by
            have h1 := dropWhile_length_le (fun ch => !isLineBreak ch) (c :: cs)
            rw [hdrop] at h1
            simp at h1
            omega
          have hXlen : (if b = '\r' ∧ r.head? = some '\n' then r.tail else r).length ≤
              r.length := by
            split
            · simp [List.length_tail]
            · exact Nat.le_refl _
          simp at hl
          show (c :: cs).takeWhile (fun ch => !isLineBreak ch) ::
              pySplitLinesFuel n2 (if b = '\r' ∧ r.head? = some '\n' then r.tail else r) =
            (c :: cs).takeWhile (fun ch => !isLineBreak ch) ::
              pySplitLinesFuel cs.length (if b = '\r' ∧ r.head? = some '\n' then r.tail else r)
          rw [ih n2 (by omega) _ (by omega), ih cs.length (by omega) _ (by omega)]

theorem takeWhile_all_append {p : Char → Bool} :
    ∀ {a : Str} (b : Str), (∀ c ∈ a, p c = true) →
      (a ++ b).takeWhile p = a ++ b.takeWhile p := by
  intro a
  induction a with
  | nil => intro b _; rfl
  | cons x xs ih =>
    intro b h
    simp only [List.cons_append, List.takeWhile_cons, h x (List.mem_cons_self _ _), if_true]
    rw [ih b (fun c hc => h c (List.mem_cons_of_mem _ hc))]

theorem dropWhile_all_append {p : Char → Bool} :
    ∀ {a : Str} (b : Str), (∀ c ∈ a, p c = true) →
      (a ++ b).dropWhile p = b.dropWhile p := by
  intro a
  induction a with
  | nil => intro b _; rfl
  | cons x xs ih =>
    intro b h
    simp only [List.cons_append, List.dropWhile_cons, h x (List.mem_cons_self _ _), if_true]
    exact ih b (fun c hc => h c (List.mem_cons_of_mem _ hc))

theorem pySplitLines_append_cons {a : Str} (r : Str)
    (ha : ∀ c ∈ a, isLineBreak c = false) :
    pySplitLines (a ++ '\n' :: r) = a :: pySplitLines r := by
  have hlen : (a ++ '\n' :: r : Str).length = (a.length + r.length) + 1 := by
    simp [Nat.add_comm, Nat.add_assoc, Nat.add_left_comm]
  rw [pySplitLines, hlen, pySplitLinesFuel_step _ _ (by simp)]
  have hall : ∀ c ∈ a, (fun ch => !isLineBreak ch) c = true := by
    intro c hc
    simp [ha c hc]
  have htake : (a ++ '\n' :: r).takeWhile (fun ch => !isLineBreak ch) = a := by
    rw [takeWhile_all_append _ hall]
    simp [List.takeWhile_cons, isLineBreak]
  have hdrop : (a ++ '\n' :: r).dropWhile (fun ch => !isLineBreak ch) = '\n' :: r := by
    rw [dropWhile_all_append _ hall]
    simp [List.dropWhile_cons, isLineBreak]
  rw [htake, hdrop]
  show a :: pySplitLinesFuel (a.length + r.length)
      (if ('\n' : Char) = '\r' ∧ r.head? = some '\n' then r.tail else r) =
    a :: pySplitLines r
  rw [if_neg (by rintro ⟨h, -⟩; exact absurd h (by decide))]
  rw [pySplitLinesFuel_fuel_eq _ _ (by omega)]

/-! ### Lemmas: lastIndexOf and splitext -/

theorem lastIndexOf_none {c : Char} : ∀ {l : Str}, lastIndexOf c l = none → c ∉ l := by
  intro l
  induction l with
  | nil => intro _ h; exact absurd h (List.not_mem_nil c)
  | cons x xs ih =>
    intro h
    unfold lastIndexOf at h
    cases hx : lastIndexOf c xs with
    | some i => rw [hx] at h; exact absurd h (by simp)
    | none =>
      rw [hx] at h
      by_cases he : x = c
      · simp [he] at h
      · intro hm
        rcases List.mem_cons.mp hm with h1 | h2
        · exact he h1.symm
        · exact ih hx h2

theorem lastIndexOf_spec {c : Char} : ∀ {l : Str} {i : Nat}, lastIndexOf c l = some i →
    ∃ a b, l = a ++ c :: b ∧ a.length = i ∧ c ∉ b := by
  intro l
  induction l with
  | nil => intro i h; exact absurd h (by simp [lastIndexOf])
  | cons x xs ih =>
    intro i h
    unfold lastIndexOf at h
    cases hx : lastIndexOf c xs with
    | some j =>
      rw [hx] at h
      obtain ⟨a, b, rfl, hlen, hnb⟩ := ih hx
      exact ⟨x :: a, b, rfl, by simp [hlen, Option.some.inj h.symm], hnb⟩
    | none =>
      rw [hx] at h
      by_cases he : x = c
      · rw [if_pos he] at h
        exact ⟨[], xs, by rw [he]; rfl, by simp [Option.some.inj h.symm], lastIndexOf_none hx⟩
      · simp [he] at h

theorem splitext_ext (p : Str) :
    (splitext p).2 = [] ∨ ∃ b, (splitext p).2 = '.' :: b ∧ '.' ∉ b := by
  unfold splitext
  cases h : lastIndexOf '.' p with
  | none => left; rfl
  | some d =>
    simp only
    split
    · right
      obtain ⟨a, b, hp, hlen, hnb⟩ := lastIndexOf_spec h
      refine ⟨b, ?_, hnb⟩
      show p.drop d = '.' :: b
      rw [hp, ← hlen, List.drop_left]
    · left; rfl

/-! ### Lemmas: mapE and format_dep -/

theorem mapE_ok {g : α → Except Err β} : ∀ {l : List α},
    (∀ x ∈ l, ∃ y, g x = .ok y) → ∃ ys, mapE g l = .ok ys := by
  intro l
  induction l with
  | nil => exact fun _ => ⟨[], rfl⟩
  | cons x xs ih =>
    intro h
    obtain ⟨y, hy⟩ := h x (List.mem_cons_self _ _)
    obtain ⟨ys, hys⟩ := ih (fun z hz => h z (List.mem_cons_of_mem _ hz))
    exact ⟨y :: ys, by simp [mapE, hy, hys]⟩

theorem mapE_error {g : α → Except Err β} : ∀ {l : List α},
    (∃ x ∈ l, ∃ e, g x = .error e) → ∃ e, mapE g l = .error e := by
  intro l
  induction l with
  | nil => rintro ⟨x, hx, _⟩; exact absurd hx (List.not_mem_nil x)
  | cons x xs ih =>
    rintro ⟨z, hz, e, he⟩
    rcases List.mem_cons.mp hz with rfl | hzs
    · exact ⟨e, by simp [mapE, he]⟩
    · cases hy : g x with
      | error e2 => exact ⟨e2, by simp [mapE, hy]⟩
      | ok y =>
        obtain ⟨e3, he3⟩ := ih ⟨z, hzs, e, he⟩
        exact ⟨e3, by simp [mapE, hy, he3]⟩

theorem format_dep_error_shape {d : Str} {e : Err} (h : format_dep d = .error e) :
    ∃ m, e = .valueError m := by
  unfold format_dep at h
  split at h
  · exact absurd h (by simp)
  · split at h
    · exact absurd h (by simp)
    · split at h
      · exact absurd h (by simp)
      · exact ⟨_, (Except.error.inj h).symm⟩
  · exact ⟨_, (Except.error.inj h).symm⟩

theorem format_dep_line_error_shape {d : Str} {e : Err} (h : format_dep_line d = .error e) :
    ∃ m, e = .valueError m := by
  unfold format_dep_line at h
  cases hf : format_dep d with
  | error e2 =>
    rw [hf] at h
    exact (Except.error.inj h) ▸ format_dep_error_shape hf
  | ok y => rw [hf] at h; exact absurd h (by simp [Except.map])

/-! ### Lemmas: to_pascal_case contains no newline -/

theorem splitOnPred_ne_nil (p : Char → Bool) (l : Str) : splitOnPred p l ≠ [] := by
  induction l with
  | nil => simp [splitOnPred]
  | cons x xs ih =>
    show (match splitOnPred p xs with
      | [] => [[x]]
      | g :: gs => if p x then [] :: g :: gs else (x :: g) :: gs) ≠ []
    cases h : splitOnPred p xs with
    | nil => simp
    | cons g gs => by_cases hx : p x <;> simp [hx]

theorem splitOnPred_mem {p : Char → Bool} : ∀ {l g : Str} {c : Char},
    g ∈ splitOnPred p l → c ∈ g → p c = false := by
  intro l
  induction l with
  | nil =>
    intro g c hg hc
    simp [splitOnPred] at hg
    subst hg
    exact absurd hc (List.not_mem_nil c)
  | cons x xs ih =>
    intro g c hg hc
    have hstep : splitOnPred p (x :: xs) =
        (match splitOnPred p xs with
         | [] => [[x]]
         | g :: gs => if p x then [] :: g :: gs else (x :: g) :: gs) := rfl
    rw [hstep] at hg
    cases h : splitOnPred p xs with
    | nil => exact absurd h (splitOnPred_ne_nil p xs)
    | cons g0 gs =>
      rw [h] at hg
      have hred : (match g0 :: gs with
          | [] => [[x]]
          | g :: gs => if p x = true then [] :: g :: gs else (x :: g) :: gs) =
          if p x = true then ([] : Str) :: g0 :: gs else (x :: g0) :: gs := rfl
      rw [hred] at hg
      by_cases hx : p x
      · rw [if_pos hx] at hg
        rcases List.mem_cons.mp hg with rfl | hg2
        · exact absurd hc (List.not_mem_nil c)
        · exact ih (h ▸ hg2) hc
      · rw [if_neg hx] at hg
        rcases List.mem_cons.mp hg with rfl | hg2
        · rcases List.mem_cons.mp hc with rfl | hc2
          · exact Bool.eq_false_iff.mpr hx
          · exact ih (h ▸ List.mem_cons_self g0 gs) hc2
        · exact ih (h ▸ List.mem_cons_of_mem _ hg2) hc

theorem isAlphanum_not_lineBreak {c : Char} (h : c.isAlphanum = true) :
    isLineBreak c = false := by
  have g : ∀ x : Char, x.isAlphanum = false → c ≠ x := by
    intro x hx he
    rw [he, hx] at h
    exact Bool.noConfusion h
  unfold isLineBreak
  simp [g '\n' (by decide), g '\r' (by decide), g '\x0b' (by decide), g '\x0c' (by decide),
    g '\x1c' (by decide), g '\x1d' (by decide), g '\x1e' (by decide), g '\x85' (by decide),
    g '\u2028' (by decide), g '\u2029' (by decide)]

theorem asciiUpper_lineBreak {c : Char} (h : isLineBreak c = false) :
    isLineBreak (asciiUpper c) = false := by
  unfold asciiUpper
  cases hf : "abcdefghijklmnopqrstuvwxyz".data.findIdx? (fun x => x = c) with
  | none => exact h
  | some i =>
    simp only [List.getD]
    cases hg : "ABCDEFGHIJKLMNOPQRSTUVWXYZ".data.get? i with
    | none => exact h
    | some x =>
      simp only [hg, Option.getD_some]
      exact (by decide : ∀ y ∈ "ABCDEFGHIJKLMNOPQRSTUVWXYZ".data, isLineBreak y = false)
        x (List.get?_mem hg)

theorem asciiLower_lineBreak {c : Char} (h : isLineBreak c = false) :
    isLineBreak (asciiLower c) = false := by
  unfold asciiLower
  cases hf : "ABCDEFGHIJKLMNOPQRSTUVWXYZ".data.findIdx? (fun x => x = c) with
  | none => exact h
  | some i =>
    simp only [List.getD]
    cases hg : "abcdefghijklmnopqrstuvwxyz".data.get? i with
    | none => exact h
    | some x =>
      simp only [hg, Option.getD_some]
      exact (by decide : ∀ y ∈ "abcdefghijklmnopqrstuvwxyz".data, isLineBreak y = false)
        x (List.get?_mem hg)

theorem to_pascal_case_lineBreakFree (s : Str) :
    ∀ c ∈ to_pascal_case s, isLineBreak c = false := by
  intro c hc
  unfold to_pascal_case at hc
  rw [List.mem_join] at hc
  obtain ⟨w, hw, hcw⟩ := hc
  rw [List.mem_map] at hw
  obtain ⟨w0, hw0, rfl⟩ := hw
  have hw0s : w0 ∈ splitOnPred (fun c => !c.isAlphanum) s := List.mem_of_mem_filter hw0
  cases w0 with
  | nil => exact absurd hcw (by simp [pyCapitalize])
  | cons c0 cs =>
    have key : ∀ x ∈ (c0 :: cs : Str), x.isAlphanum = true := by
      intro x hx
      have := splitOnPred_mem hw0s hx
      simpa using this
    rcases List.mem_cons.mp hcw with rfl | h2
    · exact asciiUpper_lineBreak (isAlphanum_not_lineBreak (key c0 (List.mem_cons_self _ _)))
    · rw [List.mem_map] at h2
      obtain ⟨x, hx, rfl⟩ := h2
      exact asciiLower_lineBreak
        (isAlphanum_not_lineBreak (key x (List.mem_cons_of_mem _ hx)))

/-! ### Lemmas: update_formula case analysis -/

theorem update_formula_fetch_err_cases (f : Formula) (name v : Str) (net : Str → HTTPResponse)
    (h : ∃ u ∈ artifact_urls f name v, ∃ e, fetch_and_hash false u (net u) = .error e) :
    (∃ e, (update_formula f name v false net).2 = .error e) ∧
      (update_formula f name v false net).1 = (artifact_urls f name v).map Effect.fetch := by
  obtain ⟨u, hu, e, he⟩ := h
  simp only [artifact_urls, List.mem_cons, List.not_mem_nil, or_false] at hu
  simp only [update_formula, artifact_urls, Bool.false_eq_true, if_false, List.map_cons,
    List.map_nil]
  cases h1 : fetch_and_hash false (package_artifact_url f name v "aarch64-apple-darwin".data)
      (net (package_artifact_url f name v "aarch64-apple-darwin".data)) <;>
  cases h2 : fetch_and_hash false (package_artifact_url f name v "x86_64-apple-darwin".data)
      (net (package_artifact_url f name v "x86_64-apple-darwin".data)) <;>
  cases h3 : fetch_and_hash false (package_artifact_url f name v "aarch64-unknown-linux-musl".data)
      (net (package_artifact_url f name v "aarch64-unknown-linux-musl".data)) <;>
  cases h4 : fetch_and_hash false (package_artifact_url f name v "x86_64-unknown-linux-musl".data)
      (net (package_artifact_url f name v "x86_64-unknown-linux-musl".data)) <;>
    (try simp_all) <;> (rcases hu with rfl | rfl | rfl | rfl <;> simp_all)

theorem mapE_error_shape {g : α → Except Err β}
    (hg : ∀ x e, g x = .error e → ∃ m, e = .valueError m) :
    ∀ {l : List α} {e : Err}, mapE g l = .error e → ∃ m, e = .valueError m := by
  intro l
  induction l with
  | nil =>
    intro e h
    exact Except.noConfusion (show Except.ok ([] : List β) = .error e from h)
  | cons x xs ih =>
    intro e h
    have hstep : mapE g (x :: xs) =
        match g x with
        | .error e => .error e
        | .ok y =>
          match mapE g xs with
          | .error e => .error e
          | .ok ys => .ok (y :: ys) := rfl
    rw [hstep] at h
    cases hx : g x with
    | error e2 => rw [hx] at h; exact (Except.error.inj h) ▸ hg x e2 hx
    | ok y =>
      rw [hx] at h
      cases hxs : mapE g xs with
      | error e3 => rw [hxs] at h; exact (Except.error.inj h) ▸ ih hxs
      | ok ys => rw [hxs] at h; exact Except.noConfusion h

theorem generate_error_of_bad_dep {f : Formula} (name v : Str) (archives : Archives)
    (hd : ∃ d ∈ f.deps, ∃ e, format_dep d = .error e) :
    ∃ m, generate_homebrew_formula f name v archives = .error (.valueError m) := by
  have hline : ∃ d ∈ f.deps, ∃ e, format_dep_line d = .error e := by
    obtain ⟨d, hdm, e, he⟩ := hd
    refine ⟨d, hdm, e, ?_⟩
    unfold format_dep_line
    rw [he]
    rfl
  obtain ⟨e, he⟩ := mapE_error hline
  obtain ⟨m, rfl⟩ :=
    mapE_error_shape (fun x e2 hx => format_dep_line_error_shape hx) he
  exact ⟨m, by simp [generate_homebrew_formula, he]⟩

theorem update_formula_bad_dep_cases (f : Formula) (name v : Str) (net : Str → HTTPResponse)
    (hd : ∃ d ∈ f.deps, ∃ e, format_dep d = .error e)
    (hnet : ∀ u ∈ artifact_urls f name v, (net u).status = 200) :
    (∃ m, (update_formula f name v false net).2 = .error (.valueError m)) ∧
      (update_formula f name v false net).1 = (artifact_urls f name v).map Effect.fetch := by
  have hok : ∀ u ∈ artifact_urls f name v,
      fetch_and_hash false u (net u) = .ok (sha256hexBytes (net u).body) := by
    intro u hu
    simp [fetch_and_hash, hnet u hu]
  simp only [artifact_urls, List.mem_cons, List.not_mem_nil, or_false] at hok
  have h1 := hok _ (Or.inl rfl)
  have h2 := hok _ (Or.inr (Or.inl rfl))
  have h3 := hok _ (Or.inr (Or.inr (Or.inl rfl)))
  have h4 := hok _ (Or.inr (Or.inr (Or.inr rfl)))
  obtain ⟨m, hm⟩ := generate_error_of_bad_dep (f := f) name v
    ⟨⟨package_artifact_url f name v "aarch64-apple-darwin".data,
        sha256hexBytes (net (package_artifact_url f name v "aarch64-apple-darwin".data)).body⟩,
      ⟨package_artifact_url f name v "x86_64-apple-darwin".data,
        sha256hexBytes (net (package_artifact_url f name v "x86_64-apple-darwin".data)).body⟩,
      ⟨package_artifact_url f name v "aarch64-unknown-linux-musl".data,
        sha256hexBytes
          (net (package_artifact_url f name v "aarch64-unknown-linux-musl".data)).body⟩,
      ⟨package_artifact_url f name v "x86_64-unknown-linux-musl".data,
        sha256hexBytes
          (net (package_artifact_url f name v "x86_64-unknown-linux-musl".data)).body⟩⟩ hd
  refine ⟨⟨m, ?_⟩, ?_⟩ <;>
    simp [update_formula, artifact_urls, h1, h2, h3, h4, hm]

/-! ### Claim C1 -/

/-- Claim C1: for every project, if the declared version read from the
persisted definition equals the resolved upstream version, the reconciliation
step performs zero artifact fetches and zero filesystem writes and the
project's outcome is `UpToDate` — the `VersionUpToDate` short-circuit in
`HomebrewContext.__init__` fires before any fetch or write. -/
theorem uptodate_no_effects (f : Formula) (fc : Option Str) (v : Str)
    (dry_run : Bool) (net : Str → HTTPResponse) (n : Str)
    (hname : f.nameE = .ok n) (hread : formula_version fc = .ok (some v)) :
    processFormula f fc (some v) dry_run net = ([], .ok .upToDate) := by
  unfold processFormula
  rw [hname, hread]
  simp

/-- Witness for C1 at a concrete project whose declared and resolved versions
are both 1.2.3. -/
theorem uptodate_no_effects_witness :
    processFormula fxFormula (some fxContent123) (some "1.2.3".data) false fxNet200 =
      ([], .ok .upToDate) :=
  uptodate_no_effects fxFormula (some fxContent123) "1.2.3".data false fxNet200
    "srv".data (by decide) (by decide)

/-! ### Claim C2 -/

/-- Claim C2: for every stale project, if any one of the four artifact fetch
calls fails (raises), `update_formula` propagates a fatal error and the
definition file is not written, however many of the other fetches succeeded:
no partial fetch result is ever persisted. -/
theorem fetch_failure_no_write (f : Formula) (name v : Str) (net : Str → HTTPResponse)
    (h : ∃ u ∈ artifact_urls f name v, ∃ e, fetch_and_hash false u (net u) = .error e) :
    (∃ e, (update_formula f name v false net).2 = .error e) ∧
      ∀ p t, Effect.write p t ∉ (update_formula f name v false net).1 := by
  obtain ⟨herr, heff⟩ := update_formula_fetch_err_cases f name v net h
  refine ⟨herr, ?_⟩
  intro p t hmem
  rw [heff] at hmem
  obtain ⟨u, _, habs⟩ := List.mem_map.mp hmem
  exact Effect.noConfusion habs

/-- Witness for C2: with every response a 404, the first fetch fails, the run
errors, and no write effect occurs. -/
theorem fetch_failure_no_write_witness :
    (∃ e, (update_formula fxFormula "srv".data "1.3.0".data false fxNet404).2 = .error e) ∧
      ∀ p t, Effect.write p t ∉
        (update_formula fxFormula "srv".data "1.3.0".data false fxNet404).1 :=
  fetch_failure_no_write fxFormula "srv".data "1.3.0".data fxNet404
    ⟨package_artifact_url fxFormula "srv".data "1.3.0".data "aarch64-apple-darwin".data,
      List.mem_cons_self _ _, Err.attributeError, rfl⟩

/-! ### Claim C3 -/

/-- Counterexample to C3 as stated: normalization is `tag_name.lstrip('v')`,
which strips every leading `v`, not exactly one.  On the tag `vv1.0` the code
resolves `1.0`, while stripping a single leading `v` would give `v1.0`. -/
theorem lstrip_v_counterexample :
    get_latest_release_version (some "vv1.0".data) = some "1.0".data ∧
      spec_strip_single_v "vv1.0".data = "v1.0".data ∧
      "1.0".data ≠ "v1.0".data := by
  refine ⟨by decide, by decide, by decide⟩

/-- Claim C3 (amended): the resolved version is the tag with its entire
maximal leading run of `v` characters removed, and the result never starts
with `v`. -/
theorem lstrip_v_strips_all (t : Str) :
    ∃ k r, get_latest_release_version (some t) = some r ∧
      t = List.replicate k 'v' ++ r ∧ ∀ rest, r ≠ 'v' :: rest := by
  refine ⟨(t.takeWhile (fun c => (['v'] : List Char).contains c)).length,
    pyLstrip ['v'] t, rfl, ?_, ?_⟩
  · have hrep : t.takeWhile (fun c => (['v'] : List Char).contains c) =
        List.replicate (t.takeWhile (fun c => (['v'] : List Char).contains c)).length 'v' := by
      apply List.eq_replicate_of_mem
      intro b hb
      have := List.mem_takeWhile_imp hb
      simpa using this.symm
    conv_lhs => rw [← List.takeWhile_append_dropWhile
      (p := fun c => (['v'] : List Char).contains c) (l := t)]
    rw [← hrep]
    rfl
  · intro rest hr
    have : (fun c => (['v'] : List Char).contains c) 'v' = false := by
      have := List.head?_dropWhile_not (p := fun c => (['v'] : List Char).contains c) t
      rw [show pyLstrip ['v'] t = t.dropWhile (fun c => (['v'] : List Char).contains c) from rfl]
        at hr
      rw [hr] at this
      simpa using this
    simp at this

/-! ### Claim C4 -/

/-- Claim C4 concerns a code bug: on a non-success response status,
`fetch_and_hash` evaluates `resp.read().decude('utf-8')` — `decude` is a typo
for `decode` — so the run fails with an `AttributeError`, not with the
intended `RuntimeError('Failed to fetch archive: HTTP status {status}')`. -/
theorem fetch_and_hash_non200_attribute_error (url : Str) (resp : HTTPResponse)
    (h : resp.status ≠ 200) :
    fetch_and_hash false url resp = .error .attributeError ∧
      ∀ m, (Err.attributeError ≠ Err.runtimeError m) := by
  refine ⟨by simp [fetch_and_hash, h], fun m hc => Err.noConfusion hc⟩

/-- Witness for C4 at a concrete 500 response. -/
theorem fetch_and_hash_non200_attribute_error_witness :
    fetch_and_hash false "https://example.com/a.tar.xz".data ⟨500, []⟩ =
        .error .attributeError ∧
      ∀ m, (Err.attributeError ≠ Err.runtimeError m) :=
  fetch_and_hash_non200_attribute_error "https://example.com/a.tar.xz".data ⟨500, []⟩
    (by decide)

/-! ### Claim C5 -/

/-- Counterexample to C5 as stated: with a malformed dependency declaration
(`foo#bogus`), a stale non-dry-run reconciliation dispatches all four artifact
fetches and only then raises the configuration error inside the renderer — the
error is not raised before the fetches. -/
theorem bad_dep_after_fetches_counterexample :
    update_formula fxFormulaBadDep "srv".data "1.3.0".data false fxNet200 =
      ((artifact_urls fxFormulaBadDep "srv".data "1.3.0".data).map Effect.fetch,
        .error (.valueError
          "Unknown dependency keyword bogus. Use optional or recommended".data)) ∧
      (artifact_urls fxFormulaBadDep "srv".data "1.3.0".data).length = 4 := by
  exact ⟨rfl, rfl⟩

/-- Claim C5 (amended): the configuration error from a malformed dependency
declaration is surfaced during rendering — after the four artifact fetches
have been dispatched, but before any filesystem write: the effect trace is
exactly the four fetches. -/
theorem bad_dep_error_after_fetches_before_write (f : Formula) (name v : Str)
    (net : Str → HTTPResponse)
    (hd : ∃ d ∈ f.deps, ∃ e, format_dep d = .error e)
    (hnet : ∀ u ∈ artifact_urls f name v, (net u).status = 200) :
    (∃ m, (update_formula f name v false net).2 = .error (.valueError m)) ∧
      (update_formula f name v false net).1 = (artifact_urls f name v).map Effect.fetch ∧
      ∀ p t, Effect.write p t ∉ (update_formula f name v false net).1 := by
  obtain ⟨herr, heff⟩ := update_formula_bad_dep_cases f name v net hd hnet
  refine ⟨herr, heff, ?_⟩
  intro p t hmem
  rw [heff] at hmem
  obtain ⟨u, _, habs⟩ := List.mem_map.mp hmem
  exact Effect.noConfusion habs

/-- Witness for the amended C5 at a concrete project with dependency
`a#b#c`. -/
theorem bad_dep_error_after_fetches_before_write_witness :
    (∃ m, (update_formula fxFormulaBadDep2 "srv".data "1.3.0".data false fxNet200).2 =
        .error (.valueError m)) ∧
      (update_formula fxFormulaBadDep2 "srv".data "1.3.0".data false fxNet200).1 =
        (artifact_urls fxFormulaBadDep2 "srv".data "1.3.0".data).map Effect.fetch ∧
      ∀ p t, Effect.write p t ∉
        (update_formula fxFormulaBadDep2 "srv".data "1.3.0".data false fxNet200).1 :=
  bad_dep_error_after_fetches_before_write fxFormulaBadDep2 "srv".data "1.3.0".data fxNet200
    ⟨"a#b#c".data, List.mem_cons_self _ _, ⟨_, rfl⟩⟩ (fun u _ => rfl)

/-! ### Lemmas: extracting the version back out of a rendered document -/

theorem lineBreakFree_append {a b : Str} (ha : ∀ c ∈ a, isLineBreak c = false)
    (hb : ∀ c ∈ b, isLineBreak c = false) : ∀ c ∈ a ++ b, isLineBreak c = false := by
  intro c hc
  rcases List.mem_append.mp hc with h | h
  exacts [ha c h, hb c h]

theorem pySplitLines_cons_nl (r : Str) :
    pySplitLines ('\n' :: r) = [] :: pySplitLines r :=
  pySplitLines_append_cons (a := []) r (by simp)

theorem extract_doc (desc cname homepage version tail : Str)
    (hdesc : ∀ c ∈ desc, isLineBreak c = false)
    (hcn : ∀ c ∈ cname, isLineBreak c = false)
    (hhome : ∀ c ∈ homepage, isLineBreak c = false)
    (hv : ∀ c ∈ version, isLineBreak c = false) (hq : '"' ∉ version) :
    formula_version_of_content
      ("# frozen_string_literal: true".data ++ '\n' ::
        ('\n' ::
          (("# ".data ++ desc) ++ '\n' ::
            (("class ".data ++ cname ++ " < Formula".data) ++ '\n' ::
              (("  desc \"".data ++ desc ++ ['"']) ++ '\n' ::
                (("  homepage \"".data ++ homepage ++ ['"']) ++ '\n' ::
                  (("  version \"".data ++ version ++ ['"']) ++ '\n' :: tail))))))) =
      .ok version := by
  have hl3 : ∀ c ∈ ("# ".data ++ desc : Str), isLineBreak c = false :=
    lineBreakFree_append (by decide) hdesc
  have hl4 : ∀ c ∈ ("class ".data ++ cname ++ " < Formula".data : Str),
      isLineBreak c = false :=
    lineBreakFree_append (lineBreakFree_append (by decide) hcn) (by decide)
  have hl5 : ∀ c ∈ ("  desc \"".data ++ desc ++ ['"'] : Str), isLineBreak c = false :=
    lineBreakFree_append (lineBreakFree_append (by decide) hdesc) (by decide)
  have hl6 : ∀ c ∈ ("  homepage \"".data ++ homepage ++ ['"'] : Str), isLineBreak c = false :=
    lineBreakFree_append (lineBreakFree_append (by decide) hhome) (by decide)
  have hl7 : ∀ c ∈ ("  version \"".data ++ version ++ ['"'] : Str), isLineBreak c = false :=
    lineBreakFree_append (lineBreakFree_append (by decide) hv) (by decide)
  have t3 : version_line_test ("# ".data ++ desc) = false :=
    version_line_test_cons_head (' ' :: desc) (by decide) (by decide)
  have t4 : version_line_test ("class ".data ++ cname ++ " < Formula".data) = false :=
    version_line_test_cons_head ("lass ".data ++ cname ++ " < Formula".data)
      (by decide) (by decide)
  have t5 : version_line_test ("  desc \"".data ++ desc ++ ['"']) = false := by
    have e1 : ("  desc \"".data ++ desc ++ ['"'] : Str) =
        ' ' :: (' ' :: ("desc \"".data ++ desc ++ ['"'])) := by simp
    rw [e1, version_line_test_cons_ws _ (by decide), version_line_test_cons_ws _ (by decide)]
    exact version_line_test_cons_head _ (by decide) (by decide)
  have t6 : version_line_test ("  homepage \"".data ++ homepage ++ ['"']) = false := by
    have e1 : ("  homepage \"".data ++ homepage ++ ['"'] : Str) =
        ' ' :: (' ' :: ("homepage \"".data ++ homepage ++ ['"'])) := by simp
    rw [e1, version_line_test_cons_ws _ (by decide), version_line_test_cons_ws _ (by decide)]
    exact version_line_test_cons_head _ (by decide) (by decide)
  have t7 : version_line_test ("  version \"".data ++ version ++ ['"']) = true :=
    version_line_test_version_line version
  unfold formula_version_of_content
  rw [pySplitLines_append_cons _ (by decide),
    pySplitLines_cons_nl _,
    pySplitLines_append_cons _ hl3,
    pySplitLines_append_cons _ hl4,
    pySplitLines_append_cons _ hl5,
    pySplitLines_append_cons _ hl6,
    pySplitLines_append_cons _ hl7]
  rw [List.find?_cons_of_neg _ (by decide),
    List.find?_cons_of_neg _ (by decide),
    List.find?_cons_of_neg _ (by simpa using t3),
    List.find?_cons_of_neg _ (by simpa using t4),
    List.find?_cons_of_neg _ (by simpa using t5),
    List.find?_cons_of_neg _ (by simpa using t6),
    List.find?_cons_of_pos _ (by simpa using t7)]
  have hsplit : splitOnChar '"' ("  version \"".data ++ version ++ ['"']) =
      ["  version ".data, version, []] := by
    rw [show ("  version \"".data ++ version ++ ['"'] : Str) =
      "  version ".data ++ '"' :: (version ++ ['"']) by simp]
    rw [splitOnChar_append _ (by decide)]
    rw [show (version ++ ['"'] : Str) = version ++ '"' :: [] from rfl]
    rw [splitOnChar_append _ hq]
    rfl
  show (match (splitOnChar '"' ("  version \"".data ++ version ++ ['"'])).get? 1 with
    | none => Except.error Err.indexError
    | some v => Except.ok v) = Except.ok version
  rw [hsplit]
  rfl

theorem FORMULA_TEMPLATE_shape (desc cname homepage version license depsfmt
    mu ms mau mas lu ls lau las b mn co : Str) :
    FORMULA_TEMPLATE desc cname homepage version license depsfmt
        mu ms mau mas lu ls lau las b mn co =
      "# frozen_string_literal: true".data ++ '\n' ::
        ('\n' ::
          (("# ".data ++ desc) ++ '\n' ::
            (("class ".data ++ cname ++ " < Formula".data) ++ '\n' ::
              (("  desc \"".data ++ desc ++ ['"']) ++ '\n' ::
                (("  homepage \"".data ++ homepage ++ ['"']) ++ '\n' ::
                  (("  version \"".data ++ version ++ ['"']) ++ '\n' ::
                    ("  license \"".data ++ license ++
                     "\"\n".data ++ depsfmt ++
                     "\n  if OS.mac?\n    on_intel do\n      url \"".data ++ mu ++
                     "\"\n      sha256 \"".data ++ ms ++
                     "\"\n    end\n    on_arm do\n      url \"".data ++ mau ++
                     "\"\n      sha256 \"".data ++ mas ++
                     "\"\n    end\n  elsif OS.linux?\n    on_intel do\n      url \"".data ++ lu ++
                     "\"\n      sha256 \"".data ++ ls ++
                     "\"\n    end\n    on_arm do\n      url \"".data ++ lau ++
                     "\"\n      sha256 \"".data ++ las ++
                     "\"\n    end\n  end\n\n  def install".data ++ b ++ mn ++ co ++
                     "\n  end\nend\n".data))))))) := by
  unfold FORMULA_TEMPLATE
  rw [show "# frozen_string_literal: true\n\n# ".data =
    "# frozen_string_literal: true".data ++ '\n' :: '\n' :: "# ".data by decide]
  rw [show "\nclass ".data = '\n' :: "class ".data by decide]
  rw [show " < Formula\n  desc \"".data =
    " < Formula".data ++ '\n' :: "  desc \"".data by decide]
  rw [show "\"\n  homepage \"".data = '"' :: '\n' :: "  homepage \"".data by decide]
  rw [show "\"\n  version \"".data = '"' :: '\n' :: "  version \"".data by decide]
  rw [show "\"\n  license \"".data = '"' :: '\n' :: "  license \"".data by decide]
  simp [List.append_assoc]

/-! ### Claim C6 -/

/-- Counterexample to C6 as stated: when the resolved version itself contains
a double quote (here `1"2`), rendering succeeds but extracting the version
line back out of the document yields only the part before the embedded quote
(`1`), not the version string that was rendered. -/
theorem roundtrip_counterexample :
    (generate_homebrew_formula fxFormula "srv".data fxVersionQuote fxArch).bind
        formula_version_of_content = .ok "1".data ∧
      "1".data ≠ fxVersionQuote := ⟨by decide, by decide⟩

set_option maxHeartbeats 2000000 in
/-- Claim C6 (amended): for every project and resolved version, provided the
version contains no double quote and no line-break character, and the
project's description and homepage contain no line-break character (the
characters Python `str.splitlines` breaks at: LF, CR, VT, FF, FS, GS, RS,
NEL, LS, PS), extracting the version from the rendered document text — the
first line whose stripped form starts with `version`, taking the first
double-quoted literal — yields exactly the resolved version given to the
renderer. -/
theorem generate_roundtrip (f : Formula) (name version : Str) (archives : Archives)
    (hdeps : ∀ d ∈ f.deps, ∃ r, format_dep d = .ok r)
    (hdesc : ∀ c ∈ f.desc, isLineBreak c = false)
    (hhome : ∀ c ∈ f.homepage, isLineBreak c = false)
    (hv : ∀ c ∈ version, isLineBreak c = false) (hq : '"' ∉ version) :
    (generate_homebrew_formula f name version archives).bind formula_version_of_content =
      .ok version := by
  have hlines : ∀ d ∈ f.deps, ∃ y, format_dep_line d = .ok y := by
    intro d hd
    obtain ⟨r, hr⟩ := hdeps d hd
    exact ⟨_, by unfold format_dep_line; rw [hr]; rfl⟩
  obtain ⟨ys, hys⟩ := mapE_ok hlines
  have hgen : generate_homebrew_formula f name version archives =
      .ok (FORMULA_TEMPLATE f.desc (to_pascal_case name) f.homepage version f.license
        (if joinNL ys = [] then [] else '\n' :: joinNL ys)
        archives.mac_x86_64.url archives.mac_x86_64.sha256
        archives.mac_aarch64.url archives.mac_aarch64.sha256
        archives.linux_x86_64.url archives.linux_x86_64.sha256
        archives.linux_aarch64.url archives.linux_aarch64.sha256
        (if joinNL (f.bins.map (fun b => "    bin.install \"".data ++ b ++ ['"'])) = []
          then []
          else '\n' :: joinNL (f.bins.map (fun b => "    bin.install \"".data ++ b ++ ['"'])))
        (if joinNL (f.mans.map (fun m => "    ".data ++ m.format)) = []
          then []
          else '\n' :: joinNL (f.mans.map (fun m => "    ".data ++ m.format)))
        (if joinNL (f.completions.map (fun c => "    ".data ++ c.format)) = []
          then []
          else '\n' :: joinNL (f.completions.map (fun c => "    ".data ++ c.format)))) := by
    unfold generate_homebrew_formula
    rw [hys]
  rw [hgen]
  rw [FORMULA_TEMPLATE_shape]
  exact extract_doc f.desc (to_pascal_case name) f.homepage version _
    hdesc (to_pascal_case_lineBreakFree name) hhome hv hq

/-- Witness for the amended C6 at a concrete project and version 1.2.3. -/
theorem generate_roundtrip_witness :
    (generate_homebrew_formula fxFormula "srv".data "1.2.3".data fxArch).bind
        formula_version_of_content = .ok "1.2.3".data :=
  generate_roundtrip fxFormula "srv".data "1.2.3".data fxArch
    (by intro d hd; exact absurd hd (List.not_mem_nil d))
    (by decide) (by decide) (by decide) (by decide)

/-! ### Claim C7 -/

/-- Counterexample to C7 as stated: a stale project whose dependency list is
malformed is, in dry-run mode, not reported as updated — the run aborts with
the configuration error from the renderer instead of appending the project to
the bumped list. -/
theorem dry_run_bad_dep_counterexample :
    update_tap [(fxFormulaBadDep, some fxContent120, some "1.3.0".data)] true fxNet200 =
      ([], .error (.valueError
        "Unknown dependency keyword bogus. Use optional or recommended".data)) := by
  rfl

/-- Claim C7 (amended): in dry-run mode, for every stale project whose
declarations render successfully, the digest computed for each of the four
artifact URLs is the SHA-256 hex digest of the URL string itself, no network
fetch and no filesystem write is performed (the effect trace is empty), and
the project is still reported as updated: the bumped list gains its name and
new version. -/
theorem dry_run_reports_updated (f : Formula) (fc : Option Str) (v n : Str)
    (declared : Option Str) (net : Str → HTTPResponse)
    (hn : f.nameE = .ok n) (hread : formula_version fc = .ok declared)
    (hne : declared ≠ some v)
    (hdeps : ∀ d ∈ f.deps, ∃ r, format_dep d = .ok r) :
    update_tap [(f, fc, some v)] true net = ([], .ok [(n, v)]) ∧
      ∀ u ∈ artifact_urls f n v, fetch_and_hash true u (net u) = .ok (sha256hexOfStr u) := by
  refine ⟨?_, fun u _ => rfl⟩
  have hlines : ∀ d ∈ f.deps, ∃ y, format_dep_line d = .ok y := by
    intro d hd
    obtain ⟨r, hr⟩ := hdeps d hd
    exact ⟨_, by unfold format_dep_line; rw [hr]; rfl⟩
  obtain ⟨ys, hys⟩ := mapE_ok hlines
  have hupd : update_formula f n v true net = ([], .ok ()) := by
    simp [update_formula, fetch_and_hash, generate_homebrew_formula, hys]
  have hpf : processFormula f fc (some v) true net = ([], .ok (.updated n declared v)) := by
    simp only [processFormula, hn, hread, if_neg hne, hupd]
  unfold update_tap
  rw [hpf]
  rfl

/-- Witness for the amended C7: a stale dry-run reconciliation of a concrete
project bumps it from 1.2.0 to 1.3.0 with an empty effect trace. -/
theorem dry_run_reports_updated_witness :
    update_tap [(fxFormula, some fxContent120, some "1.3.0".data)] true fxNet200 =
        ([], .ok [("srv".data, "1.3.0".data)]) ∧
      ∀ u ∈ artifact_urls fxFormula "srv".data "1.3.0".data,
        fetch_and_hash true u (fxNet200 u) = .ok (sha256hexOfStr u) :=
  dry_run_reports_updated fxFormula (some fxContent120) "1.3.0".data "srv".data
    (some "1.2.0".data) fxNet200 (by decide) (by decide) (by decide)
    (by intro d hd; exact absurd hd (List.not_mem_nil d))

/-! ### Claim C8 -/

/-- Claim C8: dependency formatting.  A declaration without `#` renders as the
bare quoted name; `name#optional` and `name#recommended` render with the
corresponding requirement kind; any other keyword after `#` raises the
configuration error. -/
theorem format_dep_cases (name kw : Str) (hname : '#' ∉ name) :
    format_dep name = .ok ('"' :: name ++ ['"']) ∧
      format_dep (name ++ '#' :: "optional".data) =
        .ok ('"' :: name ++ "\" => :optional".data) ∧
      format_dep (name ++ '#' :: "recommended".data) =
        .ok ('"' :: name ++ "\" => :recommended".data) ∧
      ('#' ∉ kw → kw ≠ "optional".data → kw ≠ "recommended".data →
        ∃ m, format_dep (name ++ '#' :: kw) = .error (.valueError m)) := by
  refine ⟨?_, ?_, ?_, ?_⟩
  · unfold format_dep
    rw [splitOnChar_not_mem hname]
  · have h2 : splitOnChar '#' (name ++ '#' :: "optional".data) = [name, "optional".data] := by
      rw [splitOnChar_append _ hname, splitOnChar_not_mem (by decide)]
    unfold format_dep
    rw [h2]
    simp
  · have h3 : splitOnChar '#' (name ++ '#' :: "recommended".data) =
        [name, "recommended".data] := by
      rw [splitOnChar_append _ hname, splitOnChar_not_mem (by decide)]
    unfold format_dep
    rw [h3]
    simp
  · intro hkw h1 h2
    have h4 : splitOnChar '#' (name ++ '#' :: kw) = [name, kw] := by
      rw [splitOnChar_append _ hname, splitOnChar_not_mem hkw]
    unfold format_dep
    rw [h4]
    simp only [if_neg h1, if_neg h2]
    exact ⟨_, rfl⟩

/-- Witness for C8 on the spec's own examples `foo`, `foo#optional`,
`foo#recommended`, `foo#bogus`. -/
theorem format_dep_cases_witness :
    format_dep "foo".data = .ok "\"foo\"".data ∧
      format_dep "foo#optional".data = .ok "\"foo\" => :optional".data ∧
      format_dep "foo#recommended".data = .ok "\"foo\" => :recommended".data ∧
      ∃ m, format_dep "foo#bogus".data = .error (.valueError m) := by
  obtain ⟨h1, h2, h3, h4⟩ := format_dep_cases "foo".data "bogus".data (by decide)
  exact ⟨h1, h2, h3, h4 (by decide) (by decide) (by decide)⟩

/-! ### Claim C9 -/

/-- Claim C9: completion shell-kind inference.  The shell kind is the path's
file extension with the leading dot removed, and a path with an empty
extension yields the default shell kind `zsh`; the path is stored as
declared. -/
theorem completion_shell_inference (s : Str) :
    (Completion.parse s).shell =
        (if (splitext s).2 = [] then "zsh".data
         else spec_drop_leading_dot (splitext s).2) ∧
      (Completion.parse s).path = s := by
  refine ⟨?_, rfl⟩
  show (if (splitext s).2 = [] then "zsh".data else pyLstrip ['.'] (splitext s).2) =
    (if (splitext s).2 = [] then "zsh".data else spec_drop_leading_dot (splitext s).2)
  rcases splitext_ext s with h | ⟨b, hb, hnb⟩
  · rw [h]
    simp
  · rw [hb]
    have hne : ('.' :: b : Str) ≠ [] := by simp
    rw [if_neg hne, if_neg hne]
    show List.dropWhile (fun c => (['.'] : List Char).contains c) ('.' :: b) = b
    rw [List.dropWhile_cons]
    simp only [List.contains_cons, beq_self_eq_true, Bool.true_or, if_true]
    cases b with
    | nil => rfl
    | cons c t =>
      have hc : c ≠ '.' := fun he => hnb (he ▸ List.mem_cons_self c t)
      rw [List.dropWhile_cons]
      simp [hc]

/-! ### Claim C10 -/

/-- Claim C10: reading the declared version is partial on malformed documents.
For every definition file that exists but has no line whose stripped form
starts with `version`, `formula_version` raises (the `next(...)` iterator is
exhausted) rather than returning absent; absent is returned exactly when the
definition file does not exist. -/
theorem formula_version_raises_on_malformed :
    (∀ content : Str, (∀ l ∈ pySplitLines content, version_line_test l = false) →
        formula_version (some content) = .error .stopIteration) ∧
      (∀ fc : Option Str, formula_version fc = .ok none ↔ fc = none) := by
  constructor
  · intro content hall
    have hf : (pySplitLines content).find? version_line_test = none :=
      List.find?_eq_none.mpr (fun l hl => by simp [hall l hl])
    have hcontent : formula_version_of_content content = .error .stopIteration := by
      unfold formula_version_of_content
      rw [hf]
    show (formula_version_of_content content).map some = .error .stopIteration
    rw [hcontent]
    rfl
  · intro fc
    constructor
    · intro h
      cases fc with
      | none => rfl
      | some content =>
        have h2 : Except.map some (formula_version_of_content content) =
            Except.ok (none : Option Str) := h
        cases hv : formula_version_of_content content with
        | error e => rw [hv] at h2; exact absurd h2 (by simp [Except.map])
        | ok v => rw [hv] at h2; simp [Except.map] at h2
    · rintro rfl
      rfl

/-- Witness for C10: a one-comment document raises, and a missing file reads
as absent. -/
theorem formula_version_raises_on_malformed_witness :
    formula_version (some "# no declaration\n".data) = .error .stopIteration ∧
      formula_version none = .ok none :=
  ⟨formula_version_raises_on_malformed.1 "# no declaration\n".data (by decide),
    (formula_version_raises_on_malformed.2 none).mpr rfl⟩

end Tap
